import Mathlib

/-!
# Verification of the `ecdsa-example` repository

The repository consists of two small Go programs:

* `src/aes/main.go` — reads a file, seals it with AES-GCM under the hard-coded
  16-byte key `"Test1234Test1234"`, writes `nonce ++ ciphertext-with-tag` to a
  file, and then attempts to "decrypt" — but it slices the *plaintext* it read,
  not the sealed output.
* `src/unnamed/part_000` — an ECDSA tutorial: P-384 key generation, PEM
  encode/decode of the key pair (`encode`/`decode`), and `SignASN1`/`VerifyASN1`
  over a SHA-256 digest.

The cryptographic engines themselves (`crypto/aes`, `crypto/cipher` GCM,
`crypto/ecdsa`, `crypto/x509`, `encoding/pem`) are Go standard-library code that
is not part of the repository; following the specification they are modelled
here (definitions marked "Modelled from the spec"), while the glue code of
`main`, `encode` and `decode` is embedded directly from the source.

Bytes are modelled as natural numbers and byte strings as `List Nat`.  The
GCM authentication tag is modelled as a *perfect* authenticator: a 16-entry
list whose first entry injectively encodes the key, nonce, ciphertext and
associated data.  This is the standard idealization of the spec's guarantee
that "`open` fails closed — any bit-level tampering with ciphertext, tag,
nonce, or associated data causes rejection".
-/

namespace EcdsaExample

/-! ## Injective encoding of byte strings (used by the idealized tag) -/

/-- Injective encoding of a byte string as a single natural number:
`encL [] = 0`, `encL (x :: xs) = 2 ^ x * (2 * encL xs + 1)`. -/
def encL : List Nat → Nat
  | [] => 0
  | x :: xs => 2 ^ x * (2 * encL xs + 1)

/-- Uniqueness of the decomposition of a natural number as a power of two
times an odd number. -/
theorem pow2_mul_odd_inj : ∀ a b m n : Nat,
    2 ^ a * (2 * m + 1) = 2 ^ b * (2 * n + 1) → a = b ∧ m = n := by
  intro a
  induction a with
  | zero =>
    intro b m n h
    cases b with
    | zero =>
      simp only [pow_zero, one_mul] at h
      omega
    | succ b =>
      exfalso
      have h2 : 2 * m + 1 = 2 * (2 ^ b * (2 * n + 1)) := by
        rw [pow_zero, one_mul] at h
        rw [h, pow_succ]
        ring
      generalize 2 ^ b * (2 * n + 1) = K at h2
      omega
  | succ a ih =>
    intro b m n h
    cases b with
    | zero =>
      exfalso
      have h2 : 2 * (2 ^ a * (2 * m + 1)) = 2 * n + 1 := by
        have h9 : 2 ^ (a + 1) * (2 * m + 1) = 2 * n + 1 := by
          simpa using h
        rw [← h9, pow_succ]
        ring
      generalize 2 ^ a * (2 * m + 1) = K at h2
      omega
    | succ b =>
      have h2 : 2 * (2 ^ a * (2 * m + 1)) = 2 * (2 ^ b * (2 * n + 1)) := by
        calc 2 * (2 ^ a * (2 * m + 1))
            = 2 ^ (a + 1) * (2 * m + 1) := by rw [pow_succ]; ring
          _ = 2 ^ (b + 1) * (2 * n + 1) := h
          _ = 2 * (2 ^ b * (2 * n + 1)) := by rw [pow_succ]; ring
      have h3 := Nat.eq_of_mul_eq_mul_left (by norm_num : 0 < 2) h2
      obtain ⟨hab, hmn⟩ := ih b m n h3
      exact ⟨by omega, hmn⟩

/-- `encL` is injective. -/
theorem encL_inj : ∀ l₁ l₂ : List Nat, encL l₁ = encL l₂ → l₁ = l₂ := by
  intro l₁
  induction l₁ with
  | nil =>
    intro l₂ h
    cases l₂ with
    | nil => rfl
    | cons y ys =>
      exfalso
      simp only [encL] at h
      have hpos : 0 < 2 ^ y * (2 * encL ys + 1) :=
        Nat.mul_pos (Nat.pos_pow_of_pos y (by norm_num)) (by omega)
      omega
  | cons x xs ih =>
    intro l₂ h
    cases l₂ with
    | nil =>
      exfalso
      simp only [encL] at h
      have hpos : 0 < 2 ^ x * (2 * encL xs + 1) :=
        Nat.mul_pos (Nat.pos_pow_of_pos x (by norm_num)) (by omega)
      omega
    | cons y ys =>
      simp only [encL] at h
      obtain ⟨hxy, he⟩ := pow2_mul_odd_inj x y (encL xs) (encL ys) h
      rw [hxy, ih ys he]

/-! ## Authenticated cipher engine

Modelled from the spec: the Authenticated Cipher Engine of section 4.1 is not
part of the repository (the source calls Go's `crypto/cipher` GCM).  The model
keeps GCM's observable geometry — 12-byte nonce, 16-byte tag, ciphertext the
same length as the plaintext, the tag appended to the ciphertext — and
idealizes the tag as a perfect authenticator, as the spec's fail-closed
guarantee demands. -/

/-- The AEAD's fixed nonce size in bytes (`gcm.NonceSize()`). -/
def nonceSize : Nat := 12

/-- The AEAD's tag size in bytes (`gcm.Overhead()`). -/
def tagSize : Nat := 16

/-- `aes.NewCipher` accepts exactly the AES key sizes 16, 24 and 32 bytes. -/
def supportedKeySize (key : List Nat) : Prop :=
  key.length = 16 ∨ key.length = 24 ∨ key.length = 32

instance : DecidablePred supportedKeySize := fun key => by
  unfold supportedKeySize
  infer_instance

/-- Failure of `open`: GCM reports a single error ("message authentication
failed") for every rejected input. -/
inductive AeadError where
  | authenticationFailed
deriving DecidableEq

/-- Modelled from the spec: the keystream of the idealized cipher; any
key- and nonce-dependent function works, encryption only needs XOR. -/
def keyStream (key nonce : List Nat) (i : Nat) : Nat :=
  Nat.pair (encL key) (Nat.pair (encL nonce) i)

/-- XOR the byte string with the keystream starting at position `i`.
Applying it twice gives back the input. -/
def xorStream (key nonce : List Nat) : Nat → List Nat → List Nat
  | _, [] => []
  | i, b :: bs => (b ^^^ keyStream key nonce i) :: xorStream key nonce (i + 1) bs

/-- Modelled from the spec: the authentication tag, idealized as a perfect
authenticator — a `tagSize`-entry list whose head injectively encodes the
key, nonce, ciphertext and associated data. -/
def gcmTag (key nonce ct ad : List Nat) : List Nat :=
  Nat.pair (encL key) (Nat.pair (encL nonce) (Nat.pair (encL ct) (encL ad))) ::
    List.replicate (tagSize - 1) 0

/-- Modelled from the spec: `seal(key, nonce, plaintext, associatedData)`
returns the ciphertext with the authentication tag appended
(`gcm.Seal(nil, nonce, plaintext, ad)` in Go). -/
def gcmSeal (key nonce pt ad : List Nat) : List Nat :=
  xorStream key nonce 0 pt ++ gcmTag key nonce (xorStream key nonce 0 pt) ad

/-- Modelled from the spec: `open(key, nonce, ciphertextWithTag, associatedData)`
splits off the trailing tag, recomputes it, and decrypts only on a match
(`gcm.Open(nil, nonce, c, ad)` in Go); every rejection is
`authenticationFailed`, inputs shorter than the tag included. -/
def gcmOpen (key nonce c ad : List Nat) : Except AeadError (List Nat) :=
  if c.length < tagSize then .error .authenticationFailed
  else
    let body := c.take (c.length - tagSize)
    let tag := c.drop (c.length - tagSize)
    if tag = gcmTag key nonce body ad then .ok (xorStream key nonce 0 body)
    else .error .authenticationFailed

/-- `gcm.Seal(nonce, nonce, plaintext, ad)` as called by `src/aes/main.go`:
the nonce is used as the destination buffer, so the sealed output is the
nonce immediately followed by the ciphertext-with-tag. -/
def sealWithNonce (key nonce pt ad : List Nat) : List Nat :=
  nonce ++ gcmSeal key nonce pt ad

/-- The hard-coded AES key of `src/aes/main.go`: the bytes of the string
literal `"Test1234Test1234"`. -/
def aesKeyBytes : List Nat :=
  [84, 101, 115, 116, 49, 50, 51, 52, 84, 101, 115, 116, 49, 50, 51, 52]

theorem length_xorStream (key nonce : List Nat) :
    ∀ (i : Nat) (l : List Nat), (xorStream key nonce i l).length = l.length := by
  intro i l
  induction l generalizing i with
  | nil => rfl
  | cons b bs ih => simp [xorStream, ih]

theorem xorStream_xorStream (key nonce : List Nat) :
    ∀ (i : Nat) (l : List Nat), xorStream key nonce i (xorStream key nonce i l) = l := by
  intro i l
  induction l generalizing i with
  | nil => rfl
  | cons b bs ih =>
    simp only [xorStream, ih]
    rw [Nat.xor_assoc, Nat.xor_self, Nat.xor_zero]

theorem length_gcmTag (key nonce ct ad : List Nat) :
    (gcmTag key nonce ct ad).length = tagSize := by
  simp [gcmTag, tagSize]

theorem length_gcmSeal (key nonce pt ad : List Nat) :
    (gcmSeal key nonce pt ad).length = pt.length + tagSize := by
  simp [gcmSeal, length_xorStream, length_gcmTag]

theorem length_sealWithNonce (key nonce pt ad : List Nat) :
    (sealWithNonce key nonce pt ad).length = nonce.length + (pt.length + tagSize) := by
  simp [sealWithNonce, length_gcmSeal]

/-- The idealized tag determines the nonce and the ciphertext. -/
theorem gcmTag_inj {key nonce₁ nonce₂ ct₁ ct₂ ad : List Nat}
    (h : gcmTag key nonce₁ ct₁ ad = gcmTag key nonce₂ ct₂ ad) :
    nonce₁ = nonce₂ ∧ ct₁ = ct₂ := by
  have hhead := List.head_eq_of_cons_eq h
  rw [Nat.pair_eq_pair] at hhead
  have h2 := hhead.2
  rw [Nat.pair_eq_pair] at h2
  have h3 := h2.2
  rw [Nat.pair_eq_pair] at h3
  exact ⟨encL_inj _ _ h2.1, encL_inj _ _ h3.1⟩

/-- Opening a sealed message with the same key, nonce and associated data
recovers the plaintext. -/
theorem gcmOpen_gcmSeal (key nonce pt ad : List Nat) :
    gcmOpen key nonce (gcmSeal key nonce pt ad) ad = .ok pt := by
  have hlen : (gcmSeal key nonce pt ad).length = pt.length + tagSize :=
    length_gcmSeal key nonce pt ad
  unfold gcmOpen
  rw [hlen, if_neg (by omega)]
  have hct : pt.length + tagSize - tagSize = (xorStream key nonce 0 pt).length := by
    rw [length_xorStream]
    omega
  unfold gcmSeal
  rw [hct, List.take_left, List.drop_left, if_pos rfl, xorStream_xorStream]

/-- C1: for every supported key size, every nonce of the AEAD's fixed nonce
size, every plaintext and every associated data, `open` applied with the same
key, nonce and associated data to the output of `seal` returns the original
plaintext exactly. -/
theorem C1_seal_open_roundtrip (key nonce pt ad : List Nat)
    (hkey : supportedKeySize key) (hnonce : nonce.length = nonceSize) :
    gcmOpen key nonce (gcmSeal key nonce pt ad) ad = .ok pt :=
  gcmOpen_gcmSeal key nonce pt ad

/-- Witness for C1: the source's 16-byte key, an all-zero 12-byte nonce and
the two-byte message `[104, 105]`. -/
theorem C1_seal_open_roundtrip_witness :
    gcmOpen aesKeyBytes (List.replicate 12 0)
      (gcmSeal aesKeyBytes (List.replicate 12 0) [104, 105] []) [] = .ok [104, 105] :=
  C1_seal_open_roundtrip aesKeyBytes (List.replicate 12 0) [104, 105] []
    (by decide) (by decide)

/-! ## Envelope codec

Modelled from the spec: the Envelope Codec of section 4.2 is not part of the
repository (the source slices the byte string inline, with no length check);
`unwrap` rejects inputs shorter than the fixed nonce length before any
cryptographic processing. -/

/-- Failure of `unwrap`. -/
inductive EnvelopeError where
  | malformedEnvelope
deriving DecidableEq

/-- Errors surfaced by the envelope-decryption pipeline. -/
inductive CoreError where
  | malformedEnvelope
  | authenticationFailed
deriving DecidableEq

/-- Modelled from the spec: `unwrap(envelopeBytes)` splits an envelope into
its nonce and ciphertext-with-tag, rejecting inputs shorter than the fixed
nonce length. -/
def unwrap (bytes : List Nat) : Except EnvelopeError (List Nat × List Nat) :=
  if bytes.length < nonceSize then .error .malformedEnvelope
  else .ok (bytes.take nonceSize, bytes.drop nonceSize)

/-- The decryption pipeline over an arbitrary cipher engine: `unwrap` the
envelope, then hand nonce and ciphertext to the engine.  The engine is a
parameter so that one can state that malformed envelopes are rejected without
the engine ever being consulted. -/
def unwrapThenOpen (engine : List Nat → List Nat → Except AeadError (List Nat))
    (bytes : List Nat) : Except CoreError (List Nat) :=
  match unwrap bytes with
  | .error _ => .error .malformedEnvelope
  | .ok (n, c) =>
    match engine n c with
    | .error _ => .error .authenticationFailed
    | .ok pt => .ok pt

/-- Opening a complete envelope with the GCM engine: first `nonceSize` bytes
are the nonce, the rest is the ciphertext-with-tag. -/
def openEnvelope (key bytes ad : List Nat) : Except AeadError (List Nat) :=
  gcmOpen key (bytes.take nonceSize) (bytes.drop nonceSize) ad

/-- C5: every input shorter than the fixed nonce length is rejected by
`unwrap` with `malformedEnvelope`, and the decryption pipeline returns that
rejection whatever the cipher engine is — the engine is never consulted. -/
theorem C5_unwrap_short_rejected (bytes : List Nat) (h : bytes.length < nonceSize) :
    unwrap bytes = .error .malformedEnvelope ∧
    ∀ engine : List Nat → List Nat → Except AeadError (List Nat),
      unwrapThenOpen engine bytes = .error .malformedEnvelope := by
  have hu : unwrap bytes = .error .malformedEnvelope := by
    unfold unwrap
    rw [if_pos h]
  refine ⟨hu, fun engine => ?_⟩
  unfold unwrapThenOpen
  rw [hu]

/-- Witness for C5: the three-byte input `[5, 6, 7]`. -/
theorem C5_unwrap_short_rejected_witness :
    unwrap [5, 6, 7] = .error .malformedEnvelope ∧
    ∀ engine : List Nat → List Nat → Except AeadError (List Nat),
      unwrapThenOpen engine [5, 6, 7] = .error .malformedEnvelope :=
  C5_unwrap_short_rejected [5, 6, 7] (by decide)

/-! ## The sealed-output geometry (claim C4) -/

/-- The bytes of the string `"hello, world"` (12 bytes). -/
def helloWorldBytes : List Nat :=
  [104, 101, 108, 108, 111, 44, 32, 119, 111, 114, 108, 100]

/-- C4 counterexample: with the source's 16-byte key, a 12-byte nonce and the
12-byte plaintext `"hello, world"`, the sealed output has
`12 + 12 + tagSize = 40` bytes, not `28 + tagSize = 44` as claimed. -/
theorem C4_seal_length_counterexample :
    (sealWithNonce aesKeyBytes (List.replicate nonceSize 0) helloWorldBytes []).length ≠
      28 + tagSize := by
  rw [length_sealWithNonce]
  decide

/-- C4 (amended): every sealed output is the nonce immediately followed by
the ciphertext-with-appended-tag, with no header, length prefix or version
tag; and for a 16-byte key, a 12-byte nonce and the 12-byte plaintext
`"hello, world"`, `seal` produces an output of exactly `24 + tagSize` bytes
(40 bytes). -/
theorem C4_envelope_layout :
    (∀ key nonce pt ad : List Nat,
      sealWithNonce key nonce pt ad =
        nonce ++ (xorStream key nonce 0 pt ++
          gcmTag key nonce (xorStream key nonce 0 pt) ad)) ∧
    ∀ nonce : List Nat, nonce.length = nonceSize →
      (sealWithNonce aesKeyBytes nonce helloWorldBytes []).length = 24 + tagSize := by
  constructor
  · intro key nonce pt ad
    rfl
  · intro nonce hn
    rw [length_sealWithNonce, hn]
    decide

/-- Witness for C4 (amended), at the all-zero 12-byte nonce. -/
theorem C4_envelope_layout_witness :
    (sealWithNonce aesKeyBytes (List.replicate 12 0) helloWorldBytes []).length =
      24 + tagSize :=
  C4_envelope_layout.2 (List.replicate 12 0) (by decide)

/-! ## Tampering with the sealed output (claim C8) -/

/-- Flip bit `j` of byte `i` of a byte string. -/
def flipBit (l : List Nat) (i j : Nat) : List Nat :=
  l.set i (l.getD i 0 ^^^ 2 ^ j)

theorem xor_pow2_ne (x j : Nat) : x ^^^ 2 ^ j ≠ x := by
  intro h
  have h2 : x ^^^ (x ^^^ 2 ^ j) = x ^^^ x := by rw [h]
  rw [← Nat.xor_assoc, Nat.xor_self, Nat.zero_xor] at h2
  have hpos : 0 < 2 ^ j := Nat.pos_pow_of_pos j (by norm_num)
  omega

/-- Flipping a bit inside the list changes it. -/
theorem set_getD_xor_ne (l : List Nat) (i j : Nat) (h : i < l.length) :
    l.set i (l.getD i 0 ^^^ 2 ^ j) ≠ l := by
  intro heq
  have h1 : (l.set i (l.getD i 0 ^^^ 2 ^ j))[i]? = some (l.getD i 0 ^^^ 2 ^ j) :=
    List.getElem?_set_self h
  rw [heq, List.getElem?_eq_getElem h] at h1
  have h2 : l[i] = l.getD i 0 ^^^ 2 ^ j := Option.some.inj h1
  rw [List.getD_eq_getElem l 0 h] at h2
  exact xor_pow2_ne l[i] j h2.symm

/-- `gcmOpen` rejects a ciphertext whose trailing `tagSize` bytes differ from
the recomputed tag. -/
theorem gcmOpen_append_tag_ne (key nonce ct ad tagIn : List Nat)
    (hlen : tagIn.length = tagSize)
    (hne : tagIn ≠ gcmTag key nonce ct ad) :
    gcmOpen key nonce (ct ++ tagIn) ad = .error .authenticationFailed := by
  unfold gcmOpen
  have hl : (ct ++ tagIn).length = ct.length + tagSize := by
    rw [List.length_append, hlen]
  rw [hl, if_neg (by omega)]
  have h1 : ct.length + tagSize - tagSize = ct.length := by omega
  rw [h1, List.take_left, List.drop_left, if_neg hne]

/-- C8: flipping any single bit of the sealed output — in the nonce, the
ciphertext or the tag portion — makes `open` on the modified output fail with
`authenticationFailed`; no plaintext is released. -/
theorem C8_bitflip_auth_fail (key nonce pt ad : List Nat) (i j : Nat)
    (hnonce : nonce.length = nonceSize)
    (hi : i < (sealWithNonce key nonce pt ad).length) :
    openEnvelope key (flipBit (sealWithNonce key nonce pt ad) i j) ad =
      .error .authenticationFailed := by
  have hn12 : nonce.length = 12 := hnonce
  have he : sealWithNonce key nonce pt ad =
      nonce ++ (xorStream key nonce 0 pt ++
        gcmTag key nonce (xorStream key nonce 0 pt) ad) := rfl
  generalize hct : xorStream key nonce 0 pt = ct at he
  generalize htg : gcmTag key nonce ct ad = tg at he
  have htglen : tg.length = 16 := by rw [← htg]; exact length_gcmTag key nonce ct ad
  rw [he] at hi
  rw [List.length_append, List.length_append, hn12, htglen] at hi
  rw [he]
  unfold flipBit openEnvelope
  generalize hv : (nonce ++ (ct ++ tg)).getD i 0 ^^^ 2 ^ j = v
  show gcmOpen key
      (((nonce ++ (ct ++ tg)).set i v).take nonceSize)
      (((nonce ++ (ct ++ tg)).set i v).drop nonceSize) ad = .error .authenticationFailed
  rcases Nat.lt_or_ge i 12 with hA | h12
  · -- the flipped byte lies in the nonce
    have hset : (nonce ++ (ct ++ tg)).set i v = nonce.set i v ++ (ct ++ tg) :=
      List.set_append_left i v (by omega)
    have hlset : (nonce.set i v).length = nonceSize := by
      rw [List.length_set]; exact hnonce
    rw [hset, ← hlset, List.take_left, List.drop_left]
    refine gcmOpen_append_tag_ne key (nonce.set i v) ct ad tg htglen ?_
    intro hcontra
    rw [← htg] at hcontra
    obtain ⟨hnn, -⟩ := gcmTag_inj hcontra.symm
    have hvval : v = nonce.getD i 0 ^^^ 2 ^ j := by
      rw [← hv, List.getD_append nonce (ct ++ tg) 0 i (by omega)]
    rw [hvval] at hnn
    exact set_getD_xor_ne nonce i j (by omega) hnn
  · -- the flipped byte lies past the nonce
    have hset : (nonce ++ (ct ++ tg)).set i v =
        nonce ++ (ct ++ tg).set (i - nonce.length) v :=
      List.set_append_right i v (by omega)
    have hgetDout : (nonce ++ (ct ++ tg)).getD i 0 = (ct ++ tg).getD (i - nonce.length) 0 :=
      List.getD_append_right nonce (ct ++ tg) 0 i (by omega)
    rw [hset, ← hnonce, List.take_left, List.drop_left, hn12]
    rcases Nat.lt_or_ge (i - 12) ct.length with hB | hC
    · -- the flipped byte lies in the ciphertext
      have hset2 : (ct ++ tg).set (i - 12) v = ct.set (i - 12) v ++ tg :=
        List.set_append_left (i - 12) v hB
      rw [hset2]
      refine gcmOpen_append_tag_ne key nonce (ct.set (i - 12) v) ad tg htglen ?_
      intro hcontra
      rw [← htg] at hcontra
      obtain ⟨-, hcc⟩ := gcmTag_inj hcontra.symm
      have hvval : v = ct.getD (i - 12) 0 ^^^ 2 ^ j := by
        rw [← hv, hgetDout, hn12, List.getD_append ct tg 0 (i - 12) hB]
      rw [hvval] at hcc
      exact set_getD_xor_ne ct (i - 12) j hB hcc
    · -- the flipped byte lies in the tag
      have hset2 : (ct ++ tg).set (i - 12) v = ct ++ tg.set (i - 12 - ct.length) v :=
        List.set_append_right (i - 12) v hC
      rw [hset2]
      have htgset : (tg.set (i - 12 - ct.length) v).length = tagSize := by
        rw [List.length_set, htglen]
        rfl
      refine gcmOpen_append_tag_ne key nonce ct ad (tg.set (i - 12 - ct.length) v) htgset ?_
      intro hcontra
      rw [htg] at hcontra
      have hvval : v = tg.getD (i - 12 - ct.length) 0 ^^^ 2 ^ j := by
        rw [← hv, hgetDout, hn12, List.getD_append_right ct tg 0 (i - 12) hC]
      rw [hvval] at hcontra
      exact set_getD_xor_ne tg (i - 12 - ct.length) j (by omega) hcontra

/-- Witness for C8: the source's key, the all-zero 12-byte nonce, the empty
plaintext, flipping bit 0 of byte 0 of the sealed output. -/
theorem C8_bitflip_auth_fail_witness :
    openEnvelope aesKeyBytes (flipBit (sealWithNonce aesKeyBytes (List.replicate 12 0) [] []) 0 0) [] =
      .error .authenticationFailed :=
  C8_bitflip_auth_fail aesKeyBytes (List.replicate 12 0) [] [] 0 0 (by decide)
    (by rw [length_sealWithNonce]; decide)

/-! ## The AES program `src/aes/main.go`

The program is embedded as a pure function of the outcome of
`ioutil.ReadFile("input.pdf")` and of the random nonce.  Go semantics made
explicit: on a read error the program prints the error and continues with
`data = nil`; `data[:NonceSize]` panics when `data` is shorter than the nonce
size; `log.Panic` on a `gcm.Open` error.  The ciphertext file is written
before the decryption step runs. -/

/-- The two ways the program can panic during its decryption step. -/
inductive AesPanic where
  | sliceOutOfRange
  | openAuthPanic
deriving DecidableEq

/-- Observable outcome of one run of the AES program. -/
structure AesRun where
  printedReadError : Bool
  ciphertextFile : List Nat
  decryptOutcome : Except AesPanic (List Nat)

/-- `src/aes/main.go`: read the input file (continuing with empty data and a
printed message on error), seal `data` under the hard-coded key with the fresh
nonce, write `nonce ++ ciphertext-with-tag`, then "decrypt" — slicing the
nonce off `data` itself (the plaintext just read), not off the sealed output,
and panicking if `gcm.Open` rejects. -/
def aesMain (readResult : Except String (List Nat)) (nonce : List Nat) : AesRun :=
  let data := match readResult with
    | .error _ => []
    | .ok d => d
  let printedReadError := match readResult with
    | .error _ => true
    | .ok _ => false
  let ciphertext := sealWithNonce aesKeyBytes nonce data []
  let decryptOutcome :=
    if data.length < nonceSize then Except.error AesPanic.sliceOutOfRange
    else
      match gcmOpen aesKeyBytes (data.take nonceSize) (data.drop nonceSize) [] with
      | .error _ => Except.error AesPanic.openAuthPanic
      | .ok pt => Except.ok pt
  { printedReadError := printedReadError
    ciphertextFile := ciphertext
    decryptOutcome := decryptOutcome }

/-- `data` is a valid sealed envelope under `key`: some nonce of the fixed
size and some plaintext seal to exactly `data` (with empty associated data,
as the program uses). -/
def isSealedEnvelope (key data : List Nat) : Prop :=
  ∃ nonce pt : List Nat, nonce.length = nonceSize ∧ data = sealWithNonce key nonce pt []

/-- If `gcmOpen` accepts, the ciphertext is exactly a sealed message. -/
theorem gcmOpen_ok_imp {key nonce c ad pt : List Nat}
    (h : gcmOpen key nonce c ad = .ok pt) : c = gcmSeal key nonce pt ad := by
  simp only [gcmOpen] at h
  split at h
  · exact absurd h (by simp)
  · split at h
    · next htag =>
        have hpt : xorStream key nonce 0 (c.take (c.length - tagSize)) = pt :=
          Except.ok.inj h
        unfold gcmSeal
        rw [← hpt, xorStream_xorStream, ← htag, List.take_append_drop]
    · next htag => exact absurd h (by simp)

/-- If opening `data` split at the nonce boundary succeeds, `data` was a
valid sealed envelope. -/
theorem envelope_of_open_ok {key data pt : List Nat}
    (hlen : nonceSize ≤ data.length)
    (h : gcmOpen key (data.take nonceSize) (data.drop nonceSize) [] = .ok pt) :
    isSealedEnvelope key data := by
  refine ⟨data.take nonceSize, pt, ?_, ?_⟩
  · rw [List.length_take]
    omega
  · have hc := gcmOpen_ok_imp h
    unfold sealWithNonce
    rw [← hc, List.take_append_drop]

/-- C9 (amended): for every input file of at least `nonceSize` bytes whose
contents are not themselves a valid sealed envelope under the key, the
program's decryption step — which slices the nonce off the original input
bytes, not off the sealed output it just produced — gets an authentication
error from `open` and panics instead of recovering the plaintext.  (Shorter
input files make the program panic on the slice `data[:NonceSize]` before
`open` is ever called.) -/
theorem C9_decrypt_wrong_bytes (data nonce : List Nat)
    (hlen : nonceSize ≤ data.length) (hnot : ¬ isSealedEnvelope aesKeyBytes data) :
    (aesMain (.ok data) nonce).decryptOutcome = .error .openAuthPanic := by
  show (if data.length < nonceSize then Except.error AesPanic.sliceOutOfRange
    else match gcmOpen aesKeyBytes (data.take nonceSize) (data.drop nonceSize) [] with
      | .error _ => Except.error AesPanic.openAuthPanic
      | .ok pt => Except.ok pt) = .error .openAuthPanic
  rw [if_neg (by omega)]
  cases hgo : gcmOpen aesKeyBytes (data.take nonceSize) (data.drop nonceSize) [] with
  | error e => rfl
  | ok pt => exact absurd (envelope_of_open_ok hlen hgo) hnot

/-- Witness for C9 (amended): a 12-byte input file of zero bytes, which is
too short to be a sealed envelope. -/
theorem C9_decrypt_wrong_bytes_witness :
    (aesMain (.ok (List.replicate 12 0)) (List.replicate 12 1)).decryptOutcome =
      .error .openAuthPanic :=
  C9_decrypt_wrong_bytes (List.replicate 12 0) (List.replicate 12 1) (by decide)
    (by
      rintro ⟨n, pt, hn, habs⟩
      have hl := congrArg List.length habs
      rw [length_sealWithNonce, hn] at hl
      simp only [List.length_replicate, nonceSize, tagSize] at hl
      omega)

/-- C9 counterexample to the claim as stated: the empty input file is not a
valid sealed envelope, yet the run never reaches an authentication error from
`open` — it panics earlier, on the out-of-range slice `data[:NonceSize]`. -/
theorem C9_short_input_counterexample :
    ¬ isSealedEnvelope aesKeyBytes [] ∧
    (aesMain (.ok []) (List.replicate 12 0)).decryptOutcome ≠
      Except.error AesPanic.openAuthPanic ∧
    (aesMain (.ok []) (List.replicate 12 0)).decryptOutcome =
      Except.error AesPanic.sliceOutOfRange := by
  have h3 : (aesMain (.ok []) (List.replicate 12 0)).decryptOutcome =
      Except.error AesPanic.sliceOutOfRange := rfl
  refine ⟨?_, ?_, h3⟩
  · rintro ⟨n, pt, hn, habs⟩
    have hl := congrArg List.length habs
    rw [length_sealWithNonce, hn] at hl
    simp only [List.length_nil, nonceSize, tagSize] at hl
    omega
  · rw [h3]
    intro hcontra
    exact absurd (Except.error.inj hcontra) (by decide)

/-- C10: when reading the input file fails, the program prints the error and
continues with empty data: it still seals the empty payload and writes a
ciphertext file that is exactly the nonce followed by the authentication tag
(`nonceSize + tagSize` bytes), rather than aborting. -/
theorem C10_read_error_still_writes (msg : String) (nonce : List Nat)
    (hnonce : nonce.length = nonceSize) :
    (aesMain (.error msg) nonce).printedReadError = true ∧
    (aesMain (.error msg) nonce).ciphertextFile =
      nonce ++ gcmTag aesKeyBytes nonce [] [] ∧
    (aesMain (.error msg) nonce).ciphertextFile.length = nonceSize + tagSize := by
  refine ⟨rfl, rfl, ?_⟩
  show (sealWithNonce aesKeyBytes nonce [] []).length = nonceSize + tagSize
  rw [length_sealWithNonce, hnonce]
  simp

/-- Witness for C10: a concrete read error and the all-zero 12-byte nonce. -/
theorem C10_read_error_still_writes_witness :
    (aesMain (.error "open input.pdf: no such file or directory") (List.replicate 12 0)).printedReadError = true ∧
    (aesMain (.error "open input.pdf: no such file or directory") (List.replicate 12 0)).ciphertextFile =
      List.replicate 12 0 ++ gcmTag aesKeyBytes (List.replicate 12 0) [] [] ∧
    (aesMain (.error "open input.pdf: no such file or directory") (List.replicate 12 0)).ciphertextFile.length =
      nonceSize + tagSize :=
  C10_read_error_still_writes "open input.pdf: no such file or directory"
    (List.replicate 12 0) (by decide)

/-! ## Signature engine

Modelled from the spec: the Signature Engine of section 4.3 is not part of
the repository (the source calls `ecdsa.SignASN1` / `ecdsa.VerifyASN1`).  The
prime-order group of the curve is modelled as the additive group `ZMod p`
with generator `1` (every prime-order cyclic group is isomorphic to it), the
private scalar is `d` with public key `d * 1`, and the x-coordinate
conversion `point.X mod n` is an arbitrary function `f` on the group.  A
signature is the pair `(r, s)` of scalars, as the spec's signature format
states. -/

/-- Modelled from the spec: ECDSA signing of digest `z` with private scalar
`d` and per-signature random scalar `k`.  `r = f (k · G)`,
`s = k⁻¹ (z + r d)`; signing rejects `k = 0`, `r = 0` and `s = 0` (Go
retries with fresh randomness in those cases). -/
def ecdsaSign (p : ℕ) (f : ZMod p → ZMod p) (d z k : ZMod p) :
    Option (ZMod p × ZMod p) :=
  if k = 0 then none
  else if f (k * 1) = 0 then none
  else if k⁻¹ * (z + f (k * 1) * d) = 0 then none
  else some (f (k * 1), k⁻¹ * (z + f (k * 1) * d))

/-- Modelled from the spec: ECDSA verification of signature `(r, s)` on
digest `z` under public key `Q`: reject `r = 0` or `s = 0`, then check
`f (z s⁻¹ · G + r s⁻¹ · Q) = r`. -/
def ecdsaVerify (p : ℕ) (f : ZMod p → ZMod p) (Q z : ZMod p)
    (sig : ZMod p × ZMod p) : Bool :=
  if sig.1 = 0 ∨ sig.2 = 0 then false
  else if f (z * sig.2⁻¹ * 1 + sig.1 * sig.2⁻¹ * Q) = sig.1 then true
  else false

/-- C3: for every key pair and digest, a signature produced by `sign` with
the matching private key verifies under the public key `d · G`. -/
theorem C3_sign_then_verify (p : ℕ) [Fact p.Prime] (f : ZMod p → ZMod p)
    (d z k : ZMod p) (sig : ZMod p × ZMod p)
    (h : ecdsaSign p f d z k = some sig) :
    ecdsaVerify p f (d * 1) z sig = true := by
  by_cases hk : k = 0
  · rw [ecdsaSign, if_pos hk] at h
    exact Option.noConfusion h
  rw [ecdsaSign, if_neg hk] at h
  by_cases hr : f (k * 1) = 0
  · rw [if_pos hr] at h
    exact Option.noConfusion h
  rw [if_neg hr] at h
  by_cases hs : k⁻¹ * (z + f (k * 1) * d) = 0
  · rw [if_pos hs] at h
    exact Option.noConfusion h
  rw [if_neg hs] at h
  have hsig : sig = (f (k * 1), k⁻¹ * (z + f (k * 1) * d)) := (Option.some.inj h).symm
  subst hsig
  have hzrd : z + f (k * 1) * d ≠ 0 := by
    intro hzero
    exact hs (by rw [hzero, mul_zero])
  rw [ecdsaVerify]
  simp only
  rw [if_neg (by push_neg; exact ⟨hr, hs⟩)]
  have harg : z * (k⁻¹ * (z + f (k * 1) * d))⁻¹ * 1 +
      f (k * 1) * (k⁻¹ * (z + f (k * 1) * d))⁻¹ * (d * 1) = k * 1 := by
    rw [mul_inv, inv_inv]
    calc z * (k * (z + f (k * 1) * d)⁻¹) * 1 +
        f (k * 1) * (k * (z + f (k * 1) * d)⁻¹) * (d * 1)
        = k * ((z + f (k * 1) * d)⁻¹ * (z + f (k * 1) * d)) := by ring
      _ = k * 1 := by rw [inv_mul_cancel₀ hzrd]
  rw [harg, if_pos rfl]

instance : Fact (Nat.Prime 7) := ⟨by norm_num⟩

/-- Witness for C3 in the group of order 7 with `f` the identity:
`d = 2`, `z = 3`, `k = 1` signs to `(1, 5)`, which verifies. -/
theorem C3_sign_then_verify_witness :
    ecdsaVerify 7 id ((2 : ZMod 7) * 1) 3 (1, 5) = true :=
  C3_sign_then_verify 7 id 2 3 1 (1, 5) (by rw [ecdsaSign, inv_one]; decide)

/-! ## Signature bytes and total verification (claim C7) -/

/-- Big-endian interpretation of a byte string as a natural number. -/
def beNat (l : List Nat) : Nat :=
  l.foldl (fun acc b => acc * 256 + b) 0

/-- Modelled from the spec: parser for the "structured two-integer encoding"
of a signature — a length byte, the bytes of `r`, a length byte, the bytes of
`s`; anything else is malformed and yields `none`. -/
def parseSigBytes (bytes : List Nat) : Option (Nat × Nat) :=
  match bytes with
  | [] => none
  | lr :: rest =>
    if lr ≤ rest.length then
      match rest.drop lr with
      | [] => none
      | ls :: rest2 =>
        if ls = rest2.length then some (beNat (rest.take lr), beNat rest2)
        else none
    else none

/-- `ecdsa.VerifyASN1` as a total function on raw signature bytes: parse the
signature encoding; a malformed encoding is reported as `false`, never as an
error. -/
def verifySigBytes (p : ℕ) (f : ZMod p → ZMod p) (Q z : ZMod p)
    (bytes : List Nat) : Bool :=
  match parseSigBytes bytes with
  | none => false
  | some (r, s) => ecdsaVerify p f Q z ((r : ZMod p), (s : ZMod p))

/-- C7: verification is a total pure function into `Bool`; on every byte
string the signature parser rejects, it returns `false` rather than
raising. -/
theorem C7_verify_malformed_false (p : ℕ) (f : ZMod p → ZMod p)
    (Q z : ZMod p) (bytes : List Nat) (h : parseSigBytes bytes = none) :
    verifySigBytes p f Q z bytes = false := by
  unfold verifySigBytes
  rw [h]

/-- Witness for C7: the empty byte string is malformed and verifies to
`false` for the order-7 engine. -/
theorem C7_verify_malformed_false_witness :
    verifySigBytes 7 id 1 0 [] = false :=
  C7_verify_malformed_false 7 id 1 0 [] (by decide)

/-! ## Key serialization codec

The wrappers `encode`/`decode` are embedded from `src/unnamed/part_000`; the
binary layer (`x509.MarshalECPrivateKey`, `x509.MarshalPKIXPublicKey`,
`encoding/pem`) is Go standard-library code and is modelled from the spec:
"a standard binary key encoding" is a fixed-width big-endian concatenation of
the curve parameters, the point coordinates and (for the private key) the
scalar, and the textual format "wraps [it] in delimited, labeled blocks,
delimited by literal begin/end marker lines naming the block type". -/

/-- The curve's mathematical parameters (`elliptic.CurveParams` for P-384). -/
structure CurveParams where
  p : Nat
  n : Nat
  b : Nat
  gx : Nat
  gy : Nat
  bitSize : Nat
deriving DecidableEq

/-- `ecdsa.PublicKey`: curve parameters and the point coordinates. -/
structure ECPublicKey where
  curve : CurveParams
  x : Nat
  y : Nat
deriving DecidableEq

/-- `ecdsa.PrivateKey`: the embedded public key and the private scalar. -/
structure ECPrivateKey where
  publicKey : ECPublicKey
  d : Nat
deriving DecidableEq

/-- Field width of the binary encoding in bytes (48 for P-384). -/
def byteLen : Nat := 48

/-- Fixed-width big-endian bytes of a natural number. -/
def natToBE : Nat → Nat → List Nat
  | 0, _ => []
  | w + 1, n => natToBE w (n / 256) ++ [n % 256]

theorem length_natToBE : ∀ (w n : Nat), (natToBE w n).length = w := by
  intro w
  induction w with
  | zero => intro n; rfl
  | succ w ih =>
    intro n
    simp [natToBE, ih]

/-- `beNat` inverts `natToBE` on values that fit the width. -/
theorem beNat_natToBE : ∀ (w n : Nat), n < 256 ^ w → beNat (natToBE w n) = n := by
  intro w
  induction w with
  | zero =>
    intro n h
    rw [pow_zero] at h
    simp only [natToBE, beNat, List.foldl_nil]
    omega
  | succ w ih =>
    intro n h
    have hdiv : n / 256 < 256 ^ w := by
      rw [Nat.div_lt_iff_lt_mul (by norm_num : 0 < 256)]
      calc n < 256 ^ (w + 1) := h
        _ = 256 ^ w * 256 := by rw [pow_succ]
    simp only [natToBE, beNat, List.foldl_append, List.foldl_cons, List.foldl_nil]
    have hfold : List.foldl (fun acc b => acc * 256 + b) 0 (natToBE w (n / 256)) = n / 256 :=
      ih (n / 256) hdiv
    rw [hfold]
    omega

/-- Read one fixed-width big-endian field off the front of a byte string. -/
def readBE (w : Nat) (bytes : List Nat) : Nat × List Nat :=
  (beNat (bytes.take w), bytes.drop w)

theorem take_length_append {α : Type} (l₁ l₂ : List α) (w : Nat)
    (h : l₁.length = w) : (l₁ ++ l₂).take w = l₁ := by
  subst h
  exact List.take_left l₁ l₂

theorem drop_length_append {α : Type} (l₁ l₂ : List α) (w : Nat)
    (h : l₁.length = w) : (l₁ ++ l₂).drop w = l₂ := by
  subst h
  exact List.drop_left l₁ l₂

theorem readBE_append (w v : Nat) (rest : List Nat) (hv : v < 256 ^ w) :
    readBE w (natToBE w v ++ rest) = (v, rest) := by
  unfold readBE
  rw [take_length_append _ _ _ (length_natToBE w v),
    drop_length_append _ _ _ (length_natToBE w v), beNat_natToBE w v hv]

/-- Modelled from the spec: `x509.MarshalECPrivateKey` — the binary key
structure carrying the curve parameters, the private scalar and the public
point, each as a fixed-width big-endian field. -/
def marshalECPrivateKey (k : ECPrivateKey) : List Nat :=
  natToBE byteLen k.publicKey.curve.p ++ (natToBE byteLen k.publicKey.curve.n ++
  (natToBE byteLen k.publicKey.curve.b ++ (natToBE byteLen k.publicKey.curve.gx ++
  (natToBE byteLen k.publicKey.curve.gy ++ (natToBE byteLen k.publicKey.curve.bitSize ++
  (natToBE byteLen k.d ++ (natToBE byteLen k.publicKey.x ++
  (natToBE byteLen k.publicKey.y ++ []))))))))

/-- Modelled from the spec: `x509.ParseECPrivateKey` — reads the nine fields
back and rejects trailing bytes. -/
def parseECPrivateKey (bytes : List Nat) : Option ECPrivateKey :=
  match readBE byteLen bytes with
  | (cp, r1) =>
    match readBE byteLen r1 with
    | (cn, r2) =>
      match readBE byteLen r2 with
      | (cb, r3) =>
        match readBE byteLen r3 with
        | (cgx, r4) =>
          match readBE byteLen r4 with
          | (cgy, r5) =>
            match readBE byteLen r5 with
            | (cbits, r6) =>
              match readBE byteLen r6 with
              | (d, r7) =>
                match readBE byteLen r7 with
                | (x, r8) =>
                  match readBE byteLen r8 with
                  | (y, r9) =>
                    if r9 = [] then
                      some ⟨⟨⟨cp, cn, cb, cgx, cgy, cbits⟩, x, y⟩, d⟩
                    else none

/-- Modelled from the spec: `x509.MarshalPKIXPublicKey` for an ECDSA key —
the curve parameters and the point coordinates as fixed-width big-endian
fields. -/
def marshalPKIXPublicKey (k : ECPublicKey) : List Nat :=
  natToBE byteLen k.curve.p ++ (natToBE byteLen k.curve.n ++
  (natToBE byteLen k.curve.b ++ (natToBE byteLen k.curve.gx ++
  (natToBE byteLen k.curve.gy ++ (natToBE byteLen k.curve.bitSize ++
  (natToBE byteLen k.x ++ (natToBE byteLen k.y ++ [])))))))

/-- Modelled from the spec: `x509.ParsePKIXPublicKey` for an ECDSA key. -/
def parsePKIXPublicKey (bytes : List Nat) : Option ECPublicKey :=
  match readBE byteLen bytes with
  | (cp, r1) =>
    match readBE byteLen r1 with
    | (cn, r2) =>
      match readBE byteLen r2 with
      | (cb, r3) =>
        match readBE byteLen r3 with
        | (cgx, r4) =>
          match readBE byteLen r4 with
          | (cgy, r5) =>
            match readBE byteLen r5 with
            | (cbits, r6) =>
              match readBE byteLen r6 with
              | (x, r7) =>
                match readBE byteLen r7 with
                | (y, r8) =>
                  if r8 = [] then
                    some ⟨⟨cp, cn, cb, cgx, cgy, cbits⟩, x, y⟩
                  else none

/-- A valid key: every mathematical field fits the curve's byte width (true
of every P-384 key). -/
def validECPrivateKey (k : ECPrivateKey) : Prop :=
  k.publicKey.curve.p < 256 ^ byteLen ∧ k.publicKey.curve.n < 256 ^ byteLen ∧
  k.publicKey.curve.b < 256 ^ byteLen ∧ k.publicKey.curve.gx < 256 ^ byteLen ∧
  k.publicKey.curve.gy < 256 ^ byteLen ∧ k.publicKey.curve.bitSize < 256 ^ byteLen ∧
  k.d < 256 ^ byteLen ∧ k.publicKey.x < 256 ^ byteLen ∧ k.publicKey.y < 256 ^ byteLen

instance : DecidablePred validECPrivateKey := fun k => by
  unfold validECPrivateKey
  infer_instance

theorem parseECPrivateKey_marshal (k : ECPrivateKey) (h : validECPrivateKey k) :
    parseECPrivateKey (marshalECPrivateKey k) = some k := by
  obtain ⟨h1, h2, h3, h4, h5, h6, h7, h8, h9⟩ := h
  rw [marshalECPrivateKey, parseECPrivateKey]
  rw [readBE_append byteLen _ _ h1]
  simp only
  rw [readBE_append byteLen _ _ h2]
  simp only
  rw [readBE_append byteLen _ _ h3]
  simp only
  rw [readBE_append byteLen _ _ h4]
  simp only
  rw [readBE_append byteLen _ _ h5]
  simp only
  rw [readBE_append byteLen _ _ h6]
  simp only
  rw [readBE_append byteLen _ _ h7]
  simp only
  rw [readBE_append byteLen _ _ h8]
  simp only
  rw [readBE_append byteLen _ _ h9]
  rfl

theorem parsePKIXPublicKey_marshal (k : ECPublicKey)
    (h1 : k.curve.p < 256 ^ byteLen) (h2 : k.curve.n < 256 ^ byteLen)
    (h3 : k.curve.b < 256 ^ byteLen) (h4 : k.curve.gx < 256 ^ byteLen)
    (h5 : k.curve.gy < 256 ^ byteLen) (h6 : k.curve.bitSize < 256 ^ byteLen)
    (h7 : k.x < 256 ^ byteLen) (h8 : k.y < 256 ^ byteLen) :
    parsePKIXPublicKey (marshalPKIXPublicKey k) = some k := by
  rw [marshalPKIXPublicKey, parsePKIXPublicKey]
  rw [readBE_append byteLen _ _ h1]
  simp only
  rw [readBE_append byteLen _ _ h2]
  simp only
  rw [readBE_append byteLen _ _ h3]
  simp only
  rw [readBE_append byteLen _ _ h4]
  simp only
  rw [readBE_append byteLen _ _ h5]
  simp only
  rw [readBE_append byteLen _ _ h6]
  simp only
  rw [readBE_append byteLen _ _ h7]
  simp only
  rw [readBE_append byteLen _ _ h8]
  rfl

/-! ### PEM text layer -/

/-- A line of PEM text: a begin marker naming the block type, the binary
body, or an end marker. -/
inductive PemLine where
  | beginMarker (label : String)
  | bodyBytes (bytes : List Nat)
  | endMarker (label : String)
deriving DecidableEq

/-- `pem.Block`: a type label and the wrapped binary bytes. -/
structure PemBlock where
  type : String
  bytes : List Nat
deriving DecidableEq

/-- Modelled from the spec: `pem.EncodeToMemory` — the binary body between a
begin marker line and an end marker line naming the block type. -/
def pemEncodeToMemory (b : PemBlock) : List PemLine :=
  [PemLine.beginMarker b.type, PemLine.bodyBytes b.bytes, PemLine.endMarker b.type]

/-- Modelled from the spec: `pem.Decode` — accepts exactly a begin marker, a
body and a matching end marker; anything else yields `none` (Go's nil
block). -/
def pemDecode : List PemLine → Option PemBlock
  | [PemLine.beginMarker t, PemLine.bodyBytes bs, PemLine.endMarker t2] =>
    if t = t2 then some ⟨t, bs⟩ else none
  | _ => none

theorem pemDecode_pemEncodeToMemory (b : PemBlock) :
    pemDecode (pemEncodeToMemory b) = some b := by
  simp [pemEncodeToMemory, pemDecode]

/-- The `encode` function of `src/unnamed/part_000`: marshal both keys and
wrap them in "PRIVATE KEY" / "PUBLIC KEY" PEM blocks.  The marshalling
errors are discarded with `_`, as in the source. -/
def encode (privateKey : ECPrivateKey) (publicKey : ECPublicKey) :
    List PemLine × List PemLine :=
  (pemEncodeToMemory ⟨"PRIVATE KEY", marshalECPrivateKey privateKey⟩,
   pemEncodeToMemory ⟨"PUBLIC KEY", marshalPKIXPublicKey publicKey⟩)

/-- The ways the source's `decode` can panic: `block.Bytes` when
`pem.Decode` returned nil, and the type assertion
`genericPublicKey.(*ecdsa.PublicKey)` when `x509.ParsePKIXPublicKey`
failed. -/
inductive GoPanic where
  | nilPointerDereference
  | interfaceConversion
deriving DecidableEq

/-- The `decode` function of `src/unnamed/part_000`, with Go's implicit
failure behaviour made explicit: `block, _ := pem.Decode(...)` followed by
`block.Bytes` dereferences nil and panics when decoding fails; the error of
`x509.ParseECPrivateKey` is discarded with `_`, so a failed private-key parse
silently yields a nil key (`none`); a failed public-key parse panics at the
type assertion. -/
def decode (pemEncoded pemEncodedPub : List PemLine) :
    Except GoPanic (Option ECPrivateKey × ECPublicKey) :=
  match pemDecode pemEncoded with
  | none => .error .nilPointerDereference
  | some block =>
    let privateKey := parseECPrivateKey block.bytes
    match pemDecode pemEncodedPub with
    | none => .error .nilPointerDereference
    | some blockPub =>
      match parsePKIXPublicKey blockPub.bytes with
      | none => .error .interfaceConversion
      | some publicKey => .ok (privateKey, publicKey)

/-- C2: for every valid key pair, decoding the PEM-encoded private key
reproduces the private key and decoding the PEM-encoded public key
reproduces the public key, under structural equality of the underlying
mathematical values. -/
theorem C2_decode_encode_roundtrip (k : ECPrivateKey) (h : validECPrivateKey k) :
    decode (encode k k.publicKey).1 (encode k k.publicKey).2 =
      .ok (some k, k.publicKey) := by
  obtain ⟨h1, h2, h3, h4, h5, h6, h7, h8, h9⟩ := h
  rw [encode]
  simp only
  rw [decode, pemDecode_pemEncodeToMemory]
  simp only
  rw [pemDecode_pemEncodeToMemory]
  simp only
  rw [parsePKIXPublicKey_marshal k.publicKey h1 h2 h3 h4 h5 h6 h8 h9]
  simp only
  rw [parseECPrivateKey_marshal k ⟨h1, h2, h3, h4, h5, h6, h7, h8, h9⟩]

/-- Witness for C2 at a concrete small key. -/
theorem C2_decode_encode_roundtrip_witness :
    decode
      (encode ⟨⟨⟨101, 102, 103, 104, 105, 384⟩, 11, 12⟩, 13⟩
        ⟨⟨101, 102, 103, 104, 105, 384⟩, 11, 12⟩).1
      (encode ⟨⟨⟨101, 102, 103, 104, 105, 384⟩, 11, 12⟩, 13⟩
        ⟨⟨101, 102, 103, 104, 105, 384⟩, 11, 12⟩).2 =
      .ok (some ⟨⟨⟨101, 102, 103, 104, 105, 384⟩, 11, 12⟩, 13⟩,
        ⟨⟨101, 102, 103, 104, 105, 384⟩, 11, 12⟩) :=
  C2_decode_encode_roundtrip ⟨⟨⟨101, 102, 103, 104, 105, 384⟩, 11, 12⟩, 13⟩
    (by decide)

/-- C6: the failing input for the propagation-policy claim — on input that
is not a PEM block (here: empty text), the source's `decode` does not return
an explicit error value: it dereferences the nil result of `pem.Decode` and
panics. -/
theorem C6_decode_empty_panics :
    decode [] [] = .error .nilPointerDereference := rfl

end EcdsaExample
